import Mathlib

/-!
Verification of the continuous-deployment orchestrator in `src/server.js`.

The development shallowly embeds the two parts of the server that the
specification makes claims about:

* the deployment orchestrator (`deploy` at src/server.js:177-233 together
  with the module-level mutable state `deploying = {active: false}` and
  `queued = {}` at lines 13-14), modelled as a small-step event system on
  an explicit state record; and
* the push-hook admission path (`routeHookPush` at src/server.js:128-175),
  modelled as a pure function from the request data to an outcome record.

Modelling decisions, all taken directly from the JavaScript source:

* `deploying` is a plain JS object whose own keys are the literal key
  `"active"` (a boolean, the global single-flight lock) plus one key per
  name currently marked in-flight.  The guard `deployer.name in deploying`
  uses the JS `in` operator, which also sees the inherited enumerable and
  non-enumerable properties of `Object.prototype`; we therefore model the
  guard as `name = "active" ∨ name ∈ deployingNames ∨ name ∈ objectProtoKeys`.
* `queued` is a plain JS object used as a map from names to deployer
  records.  Assignment `queued[name] = d` replaces the value in place when
  the key is present (keeping its position) and appends a fresh key
  otherwise, which is exactly `jsObjSet` on an association list.  The drain
  step `for (var queuedName in queued) break; if (queuedName) ...` picks the
  first enumerated key; we model enumeration as insertion order (JS would
  move array-index-like keys to the front, but no claim depends on which
  single entry the drain picks).  When the first key is the empty string,
  `if (queuedName)` is falsy and nothing is drained or removed.
* the asynchronous `exec(git pull, cb)` and `deployerRunner.run(d, cb)`
  calls are modelled as in-flight tasks; completion of a task is a separate
  event, so interleavings of several pending callbacks are representable.
  `runs` is the observation log of every invocation of `deployerRunner.run`.
-/

namespace Komodo

/-- The `deployer` record built in `routeHookPush` (src/server.js:155-161)
and passed to `deploy`.  Scheduler-synthesised requests (src/server.js:120)
use the same shape with arbitrary field contents. -/
structure Deployer where
  name : String
  path : String
  repository : String
  branch : String
deriving DecidableEq

/-- An asynchronous operation currently in flight: the `exec` of
`git reset --hard HEAD && git pull` (src/server.js:194) or the invocation of
the target's `run` (src/server.js:207). -/
inductive Task where
  | pull (d : Deployer)
  | run (d : Deployer)
deriving DecidableEq

/-- The deployer name a task belongs to. -/
def Task.name : Task → String
  | .pull d => d.name
  | .run d => d.name

/-- Whether a task is an executing `run` step. -/
def Task.isRun : Task → Bool
  | .pull _ => false
  | .run _ => true

/-- The module-level mutable state of the orchestrator
(src/server.js:13-14), plus the list of in-flight asynchronous callbacks
and the observation log `runs` of `deployerRunner.run` invocations. -/
structure OrchState where
  active : Bool
  deployingNames : List String
  queued : List (String × Deployer)
  inflight : List Task
  runs : List String
deriving DecidableEq

/-- Initial state: `deploying = {active: false}`, `queued = {}`. -/
def initState : OrchState :=
  { active := false, deployingNames := [], queued := [], inflight := [], runs := [] }

/-- The inherited enumerable and non-enumerable properties of
`Object.prototype` that the JS `in` operator sees on a plain object. -/
def objectProtoKeys : List String :=
  ["constructor", "hasOwnProperty", "isPrototypeOf", "propertyIsEnumerable",
   "toLocaleString", "toString", "valueOf",
   "__defineGetter__", "__defineSetter__", "__lookupGetter__",
   "__lookupSetter__", "__proto__"]

/-- The JS test `deployer.name in deploying` (src/server.js:180): true for
the own key `"active"`, for any name currently marked in-flight, and for
every inherited `Object.prototype` property. -/
def jsIn (name : String) (s : OrchState) : Prop :=
  name = "active" ∨ name ∈ s.deployingNames ∨ name ∈ objectProtoKeys

instance (name : String) (s : OrchState) : Decidable (jsIn name s) :=
  inferInstanceAs (Decidable (name = "active" ∨ name ∈ s.deployingNames ∨ name ∈ objectProtoKeys))

/-- JS object assignment `m[k] = v` on an object used as a map: replace the
value in place when the key is present, append the key otherwise. -/
def jsObjSet (m : List (String × Deployer)) (k : String) (v : Deployer) :
    List (String × Deployer) :=
  match m with
  | [] => [(k, v)]
  | (k0, v0) :: rest =>
      if k0 = k then (k0, v) :: rest else (k0, v0) :: jsObjSet rest k v

/-- JS object assignment `deploying[name] = true` (src/server.js:189): add
the key if it is not already an own key. -/
def markDeploying (l : List String) (n : String) : List String :=
  if n ∈ l then l else l ++ [n]

/-- The entry point `deploy(deployer)` (src/server.js:177-193): queue the
request when `deployer.name in deploying || deploying.active`, otherwise
mark the name, take the lock, and start the `git pull` exec. -/
def jsSubmit (s : OrchState) (d : Deployer) : OrchState :=
  if jsIn d.name s ∨ s.active = true then
    { s with queued := jsObjSet s.queued d.name d }
  else
    { s with deployingNames := markDeploying s.deployingNames d.name,
             active := true,
             inflight := s.inflight ++ [Task.pull d] }

/-- Completion of the `git pull` exec callback (src/server.js:194-209).  On
error the callback logs and returns without touching the state
(src/server.js:198-202); on success it loads the target's definition and
invokes `deployerRunner.run` (src/server.js:205-207), recorded in `runs`. -/
def jsPullDone (s : OrchState) (d : Deployer) (err : Bool) : OrchState :=
  if Task.pull d ∈ s.inflight then
    if err then
      { s with inflight := s.inflight.erase (Task.pull d) }
    else
      { s with inflight := s.inflight.erase (Task.pull d) ++ [Task.run d],
               runs := s.runs ++ [d.name] }
  else s

/-- The drain step at the end of the `run` callback (src/server.js:222-230):
`for (var queuedName in queued) break;` picks the first key; when `queued`
is empty `queuedName` is `undefined` and when the first key is `""` the test
`if (queuedName)` is falsy, so in both cases nothing is drained; otherwise
the entry is removed and resubmitted through `deploy`. -/
def drainOne (s : OrchState) : OrchState :=
  match s.queued with
  | [] => s
  | (n, q) :: rest =>
      if n = "" then s else jsSubmit { s with queued := rest } q

/-- Completion of the `deployerRunner.run` callback (src/server.js:207-230):
an error is only logged (src/server.js:209-212), then the name is unmarked,
the lock is released, and one queued entry is drained. -/
def jsRunDone (s : OrchState) (d : Deployer) (_err : Bool) : OrchState :=
  if Task.run d ∈ s.inflight then
    drainOne { s with inflight := s.inflight.erase (Task.run d),
                      deployingNames := s.deployingNames.erase d.name,
                      active := false }
  else s

/-- One atomic event on the single-threaded event loop: a call to `deploy`,
or the firing of a pending pull or run callback. -/
inductive Event where
  | submit (d : Deployer)
  | pullDone (d : Deployer) (err : Bool)
  | runDone (d : Deployer) (err : Bool)
deriving DecidableEq

/-- Apply one event to the orchestrator state. -/
def step (s : OrchState) : Event → OrchState
  | .submit d => jsSubmit s d
  | .pullDone d err => jsPullDone s d err
  | .runDone d err => jsRunDone s d err

/-- Reachability of one state from another by a finite event sequence. -/
inductive ReachFrom : OrchState → OrchState → Prop
  | refl (s : OrchState) : ReachFrom s s
  | tail {s t : OrchState} (h : ReachFrom s t) (e : Event) : ReachFrom s (step t e)

/-- States reachable from the process start. -/
def Reachable (s : OrchState) : Prop :=
  ReachFrom initState s

/-- A deployer name that does not collide with the lock key `"active"`,
with an inherited `Object.prototype` property, or with the falsy empty
string used by the drain test. -/
def SafeName (n : String) : Prop :=
  n ≠ "" ∧ n ≠ "active" ∧ n ∉ objectProtoKeys

instance (n : String) : Decidable (SafeName n) :=
  inferInstanceAs (Decidable (n ≠ "" ∧ n ≠ "active" ∧ n ∉ objectProtoKeys))

/-- Reachability when every submitted request has a non-colliding name. -/
inductive SafeReach : OrchState → Prop
  | init : SafeReach initState
  | submit {s : OrchState} {d : Deployer} (h : SafeReach s) (hd : SafeName d.name) :
      SafeReach (step s (Event.submit d))
  | pullDone {s : OrchState} {d : Deployer} {err : Bool} (h : SafeReach s) :
      SafeReach (step s (Event.pullDone d err))
  | runDone {s : OrchState} {d : Deployer} {err : Bool} (h : SafeReach s) :
      SafeReach (step s (Event.runDone d err))

/-- The deterministic completion sequence used to drain the queue: finish
the current run, then repeatedly let the drained entry's pull succeed and
its run complete, for `fuel` further cycles. -/
def runToCompletion : Nat → Deployer → OrchState → OrchState
  | 0, d, s => jsRunDone s d false
  | fuel + 1, d, s =>
      match (jsRunDone s d false).inflight with
      | [Task.pull q] =>
          runToCompletion fuel q (jsPullDone (jsRunDone s d false) q false)
      | _ => jsRunDone s d false

/-! ## Admission path (`routeHookPush`, src/server.js:128-175) -/

/-- The fields of the push payload that `routeHookPush` reads:
`payload.repository.name` and `payload.ref` (src/server.js:151-153). -/
structure PushPayload where
  repositoryName : String
  ref : String
deriving DecidableEq

/-- JS `String.prototype.split` with a one-character separator, on the
character list of the string. -/
def splitOnChar (c : Char) : List Char → List (List Char)
  | [] => [[]]
  | x :: xs =>
      match splitOnChar c xs with
      | [] => [[]]
      | h :: t => if x = c then [] :: h :: t else (x :: h) :: t

/-- JS `s.split(c)` for a one-character separator `c`. -/
def jsSplit (s : String) (c : Char) : List String :=
  (splitOnChar c s.data).map String.mk

/-- `payload.ref.split("/").slice(-1).join("-")` (src/server.js:152):
`slice(-1)` keeps only the last element, so the join returns it unchanged. -/
def branchSlugOf (ref : String) : String :=
  (jsSplit ref '/').getLastD ""

/-- The deployer record built by `routeHookPush` (src/server.js:155-161):
`name = [repo, branch].join("-")`, `path = __dirname + "/../" + name`,
`branch = payload.ref.split("/").slice(-1)[0]`. -/
def mkDeployer (dirname : String) (p : PushPayload) : Deployer :=
  { name := p.repositoryName ++ "-" ++ branchSlugOf p.ref,
    path := dirname ++ "/../" ++ (p.repositoryName ++ "-" ++ branchSlugOf p.ref),
    repository := p.repositoryName,
    branch := (jsSplit p.ref '/').getLastD "" }

/-- Decimal digit value of a character, if any. -/
def charDigit? (c : Char) : Option Nat :=
  if '0' ≤ c ∧ c ≤ '9' then some (c.toNat - '0'.toNat) else none

/-- Accumulate a decimal number over a character list, failing on any
non-digit character. -/
def natOfDigitsAux : List Char → Nat → Option Nat
  | [], acc => some acc
  | c :: cs, acc =>
      match charDigit? c with
      | some dig => natOfDigitsAux cs (acc * 10 + dig)
      | none => none

/-- Parse a non-empty all-digit string as a decimal number. -/
def parseDecimal (s : String) : Option Nat :=
  match s.data with
  | [] => none
  | l => natOfDigitsAux l 0

/-- Modelled from the spec: the external `range_check` dependency used at
src/server.js:132-137 is not part of this repository; following §4.1
("`sourceAddress` is not contained in any CIDR range of the current
allow-list") we model its IPv4 address parsing: four dot-separated decimal
octets, each at most 255, combined big-endian. -/
def parseIPv4 (s : String) : Option Nat :=
  match (jsSplit s '.').mapM parseDecimal with
  | some [a, b, c, d] =>
      if a ≤ 255 ∧ b ≤ 255 ∧ c ≤ 255 ∧ d ≤ 255 then
        some (((a * 256 + b) * 256 + c) * 256 + d)
      else none
  | _ => none

/-- Modelled from the spec: `range_check.in_range(ip, range)`
(src/server.js:134) for an IPv4 CIDR range — the address is in the range
iff it agrees with the base address on the first `len` bits; any parse
failure yields `false`. -/
def in_range (ip range : String) : Bool :=
  match jsSplit range '/' with
  | [base, lenStr] =>
      match parseIPv4 ip, parseIPv4 base, parseDecimal lenStr with
      | some ipN, some baseN, some len =>
          if len ≤ 32 then
            ipN / 2 ^ (32 - len) == baseN / 2 ^ (32 - len)
          else false
      | _, _, _ => false
  | _ => false

/-- The source-address loop of `routeHookPush` (src/server.js:132-143):
break on the first matching range, reject only when the last range has been
checked without a match; with an empty list the loop body never runs and
the request proceeds. -/
def ipAllowedLoop (ip : String) : List String → Bool
  | [] => true
  | r :: rs =>
      if in_range ip r then true
      else
        match rs with
        | [] => false
        | _ :: _ => ipAllowedLoop ip rs

/-- Observable outcome of one `routeHookPush` call: the body passed to
`res.send` if it was reached, whether an exception escaped the handler
before that, and the deployer passed to `deploy` if dispatch happened. -/
structure HookOutcome where
  response : Option String
  thrown : Bool
  dispatched : Option Deployer
deriving DecidableEq

/-- The part of `routeHookPush` after the source check
(src/server.js:148-174): `JSON.parse(req.body.payload)` throws on a
malformed body before `res.send('')` is reached; on success the deployer is
built, dispatched only when `deploy.js` exists at its path, and the empty
response is always sent. -/
def parseAndDispatch (dirname : String) (body : Option PushPayload)
    (deployFileExists : Bool) : HookOutcome :=
  match body with
  | none => { response := none, thrown := true, dispatched := none }
  | some p =>
      { response := some "",
        thrown := false,
        dispatched := if deployFileExists then some (mkDeployer dirname p) else none }

/-- The full push-hook handler `routeHookPush` (src/server.js:128-175). -/
def routeHookPush (dirname : String) (ranges : List String) (ip : String)
    (body : Option PushPayload) (deployFileExists : Bool) : HookOutcome :=
  if ipAllowedLoop ip ranges then parseAndDispatch dirname body deployFileExists
  else { response := some "", thrown := false, dispatched := none }

/-! ## Concrete sample data used by witnesses and counterexamples -/

/-- A hook-shaped deployer for repository `app`, branch `main`. -/
def dMain : Deployer :=
  { name := "app-main", path := "/srv/../app-main", repository := "app", branch := "main" }

/-- A second hook-shaped deployer with a distinct name. -/
def dOther : Deployer :=
  { name := "b-main", path := "/srv/../b-main", repository := "b", branch := "main" }

/-- A scheduler-synthesised request whose name collides with the literal
lock key `"active"` of the `deploying` object. -/
def dActive : Deployer :=
  { name := "active", path := "/srv/../active", repository := "active", branch := "x" }

/-- The payload of the branch-derivation claim. -/
def payloadFeature : PushPayload :=
  { repositoryName := "app", ref := "refs/heads/feature/x" }

/-- A plain push payload for repository `app`, branch `main`. -/
def payloadMain : PushPayload :=
  { repositoryName := "app", ref := "refs/heads/main" }

/-- The state after submitting `dMain` from idle: its pull is in flight. -/
def sPullingMain : OrchState :=
  step initState (Event.submit dMain)

/-- The state after `dMain`'s pull fails: the error branch has returned. -/
def sPullFailed : OrchState :=
  step sPullingMain (Event.pullDone dMain true)

/-- Submitting a request named `"active"` from the initial idle state. -/
def sActiveQueued : OrchState :=
  step initState (Event.submit dActive)

/-- Busy running `dMain` with the `"active"`-named request queued, then the
run completes and the drain fires. -/
def sActiveStuck : OrchState :=
  step (step (step (step initState (Event.submit dMain)) (Event.submit dActive))
    (Event.pullDone dMain false)) (Event.runDone dMain false)

/-- Busy running `dMain` with `dOther` queued behind it. -/
def sBusyQueued : OrchState :=
  step (step (step initState (Event.submit dMain)) (Event.submit dOther))
    (Event.pullDone dMain false)

/-! ## General invariant machinery -/

/-- A list of length at most one is determined by any of its members. -/
theorem mem_len_one {α : Type} {l : List α} {a : α} (h : a ∈ l) (hl : l.length ≤ 1) :
    l = [a] := by
  cases l with
  | nil => cases h
  | cons x xs =>
    cases xs with
    | nil => simp_all
    | cons y ys => simp at hl

/-- Any property preserved by every event holds along every event sequence. -/
theorem reachFrom_pres {P : OrchState → Prop} (hstep : ∀ t e, P t → P (step t e))
    {a b : OrchState} (h : ReachFrom a b) (ha : P a) : P b := by
  induction h with
  | refl => exact ha
  | tail h e ih => exact hstep _ e ih

/-- The single-flight invariant: at most one asynchronous operation is in
flight, and whenever one is, the global lock is held. -/
def Inv1 (s : OrchState) : Prop :=
  s.inflight.length ≤ 1 ∧ (s.inflight ≠ [] → s.active = true)

/-- Every event preserves the single-flight invariant. -/
theorem inv1_step (t : OrchState) (e : Event) (h : Inv1 t) : Inv1 (step t e) := by
  obtain ⟨hlen, hact⟩ := h
  cases e with
  | submit d =>
    show Inv1 (jsSubmit t d)
    unfold jsSubmit
    split
    · exact ⟨hlen, hact⟩
    · next hg =>
      have hinf : t.inflight = [] := by
        by_contra hne
        exact hg (Or.inr (hact hne))
      refine ⟨?_, fun _ => rfl⟩
      show (t.inflight ++ [Task.pull d]).length ≤ 1
      rw [hinf]
      simp
  | pullDone d err =>
    show Inv1 (jsPullDone t d err)
    unfold jsPullDone
    split
    · next hmem =>
      have heq : t.inflight = [Task.pull d] := mem_len_one hmem hlen
      have hatrue : t.active = true := hact (by rw [heq]; simp)
      split
      · refine ⟨?_, fun _ => hatrue⟩
        show (t.inflight.erase (Task.pull d)).length ≤ 1
        rw [heq]
        simp
      · refine ⟨?_, fun _ => hatrue⟩
        show (t.inflight.erase (Task.pull d) ++ [Task.run d]).length ≤ 1
        rw [heq]
        simp
    · exact ⟨hlen, hact⟩
  | runDone d err =>
    show Inv1 (jsRunDone t d err)
    unfold jsRunDone
    split
    · next hmem =>
      have heq : t.inflight = [Task.run d] := mem_len_one hmem hlen
      have h1 : t.inflight.erase (Task.run d) = [] := by rw [heq]; simp
      unfold drainOne
      split
      · exact ⟨by simp [h1], fun hne => absurd h1 hne⟩
      · next n q rest heq2 =>
        split
        · exact ⟨by simp [h1], fun hne => absurd h1 hne⟩
        · unfold jsSubmit
          split
          · exact ⟨by simp [h1], fun hne => absurd h1 hne⟩
          · refine ⟨?_, fun _ => rfl⟩
            show ((t.inflight.erase (Task.run d)) ++ [Task.pull q]).length ≤ 1
            rw [h1]
            simp
    · exact ⟨hlen, hact⟩

/-! ## Claim C1: at most one deployment executes at any instant. -/

/-- C1: in every reachable state of the orchestrator at most one `run`
step is executing — in fact at most one pull-or-run operation is in flight
system-wide, because `deploy` only starts an execution when
`deploying.active` is false and takes the lock before the pull begins. -/
theorem claim1_at_most_one_running (s : OrchState) (h : Reachable s) :
    (s.inflight.filter Task.isRun).length ≤ 1 ∧ s.inflight.length ≤ 1 := by
  have h1 : Inv1 s :=
    reachFrom_pres inv1_step h ⟨Nat.zero_le 1, fun hne => absurd rfl hne⟩
  exact ⟨le_trans (List.length_filter_le _ _) h1.1, h1.1⟩

/-- C1 witness: the bound evaluated on the concrete reachable state in
which `app-main`'s pull has been started from idle. -/
theorem claim1_witness :
    (sPullingMain.inflight.filter Task.isRun).length ≤ 1 ∧
    sPullingMain.inflight.length ≤ 1 :=
  claim1_at_most_one_running sPullingMain
    (ReachFrom.tail (ReachFrom.refl initState) (Event.submit dMain))

/-! ## Claim C2 (code bug): the pull-error path does not release the lock.

In `deploy`, the `git pull` callback handles an error with a bare `return`
(src/server.js:198-202); the cleanup `delete deploying[deployer.name];
deploying.active = false;` and the queue drain live inside the `run`
callback (src/server.js:215-230), which is never invoked on pull failure.
-/

/-- C2: evaluating the code at the failing input — submit `app-main` from
idle, then let its `git pull` fail.  Afterwards `deploying.active` is still
`true`, the name is still marked, nothing was drained, `run` was never
invoked, and a subsequent submission is queued instead of being accepted
for execution — contradicting the claimed release of the lock. -/
theorem claim2_pull_error_keeps_lock :
    sPullFailed.active = true ∧
    sPullFailed.deployingNames = ["app-main"] ∧
    sPullFailed.inflight = [] ∧
    sPullFailed.runs = [] ∧
    sPullFailed.queued = [] ∧
    (step sPullFailed (Event.submit dOther)).queued = [("b-main", dOther)] ∧
    (step sPullFailed (Event.submit dOther)).inflight = [] ∧
    (step sPullFailed (Event.submit dOther)).active = true := by
  decide

/-! ## Properties of JS object-as-map assignment -/

/-- Assigning to a present key keeps the key list unchanged. -/
theorem jsObjSet_keys_of_mem {m : List (String × Deployer)} {k : String} (v : Deployer)
    (h : k ∈ m.map Prod.fst) :
    (jsObjSet m k v).map Prod.fst = m.map Prod.fst := by
  induction m with
  | nil => simp at h
  | cons p rest ih =>
    obtain ⟨k0, v0⟩ := p
    unfold jsObjSet
    by_cases hk : k0 = k
    · rw [if_pos hk]
      simp
    · rw [if_neg hk]
      have h' : k ∈ rest.map Prod.fst := by
        rw [List.map_cons] at h
        rcases List.mem_cons.mp h with h1 | h1
        · exact absurd h1.symm hk
        · exact h1
      simp [ih h']

/-- Assigning to an absent key appends it to the key list. -/
theorem jsObjSet_keys_of_not_mem {m : List (String × Deployer)} {k : String} (v : Deployer)
    (h : k ∉ m.map Prod.fst) :
    (jsObjSet m k v).map Prod.fst = m.map Prod.fst ++ [k] := by
  induction m with
  | nil => simp [jsObjSet]
  | cons p rest ih =>
    obtain ⟨k0, v0⟩ := p
    unfold jsObjSet
    have hk : k0 ≠ k := by
      intro he
      exact h (by simp [he])
    rw [if_neg hk]
    have h' : k ∉ rest.map Prod.fst := fun hm => h (by simp [hm])
    simp [ih h']

/-- After an assignment the assigned key is present. -/
theorem jsObjSet_keys_self (m : List (String × Deployer)) (k : String) (v : Deployer) :
    k ∈ (jsObjSet m k v).map Prod.fst := by
  by_cases hm : k ∈ m.map Prod.fst
  · rwa [jsObjSet_keys_of_mem v hm]
  · rw [jsObjSet_keys_of_not_mem v hm]
    simp

/-- An assignment never removes other keys. -/
theorem jsObjSet_keys_superset {m : List (String × Deployer)} {k' : String}
    (k : String) (v : Deployer) (h : k' ∈ m.map Prod.fst) :
    k' ∈ (jsObjSet m k v).map Prod.fst := by
  by_cases hm : k ∈ m.map Prod.fst
  · rwa [jsObjSet_keys_of_mem v hm]
  · rw [jsObjSet_keys_of_not_mem v hm]
    exact List.mem_append_left _ h

/-- Looking up the assigned key yields the assigned value. -/
theorem jsObjSet_lookup (m : List (String × Deployer)) (k : String) (v : Deployer) :
    (jsObjSet m k v).lookup k = some v := by
  induction m with
  | nil => simp [jsObjSet, List.lookup]
  | cons p rest ih =>
    obtain ⟨k0, v0⟩ := p
    unfold jsObjSet
    by_cases hk : k0 = k
    · rw [if_pos hk]
      subst hk
      simp [List.lookup]
    · rw [if_neg hk]
      have hne : (k == k0) = false := beq_eq_false_iff_ne.mpr (Ne.symm hk)
      simp [List.lookup, hne, ih]

/-- The length grows by one exactly when the key was absent. -/
theorem jsObjSet_length (m : List (String × Deployer)) (k : String) (v : Deployer) :
    (jsObjSet m k v).length =
      if k ∈ m.map Prod.fst then m.length else m.length + 1 := by
  have h1 : (jsObjSet m k v).length = ((jsObjSet m k v).map Prod.fst).length := by
    simp
  have h2 : m.length = (m.map Prod.fst).length := by simp
  by_cases hm : k ∈ m.map Prod.fst
  · rw [if_pos hm, h1, jsObjSet_keys_of_mem v hm, h2]
  · rw [if_neg hm, h1, jsObjSet_keys_of_not_mem v hm, h2]
    simp

/-- Assignment preserves distinctness of the keys. -/
theorem jsObjSet_nodup {m : List (String × Deployer)} {k : String} {v : Deployer}
    (h : (m.map Prod.fst).Nodup) : ((jsObjSet m k v).map Prod.fst).Nodup := by
  by_cases hm : k ∈ m.map Prod.fst
  · rwa [jsObjSet_keys_of_mem v hm]
  · rw [jsObjSet_keys_of_not_mem v hm]
    simp [List.nodup_append, h, hm]

/-- Assignment preserves any pointwise property that the new pair has. -/
theorem jsObjSet_forall {P : String × Deployer → Prop} {m : List (String × Deployer)}
    {k : String} {v : Deployer} (hm : ∀ p ∈ m, P p) (hkv : P (k, v)) :
    ∀ p ∈ jsObjSet m k v, P p := by
  induction m with
  | nil =>
    intro p hp
    simp [jsObjSet] at hp
    rw [hp]
    exact hkv
  | cons p0 rest ih =>
    obtain ⟨k0, v0⟩ := p0
    unfold jsObjSet
    by_cases hk : k0 = k
    · rw [if_pos hk]
      intro p hp
      rcases List.mem_cons.mp hp with rfl | hp'
      · subst hk
        exact hkv
      · exact hm p (List.mem_cons_of_mem _ hp')
    · rw [if_neg hk]
      intro p hp
      rcases List.mem_cons.mp hp with rfl | hp'
      · exact hm _ (List.mem_cons_self _ _)
      · exact ih (fun p1 hp1 => hm p1 (List.mem_cons_of_mem _ hp1)) p hp'

/-- The queue invariant maintained by every operation: the stored keys are
pairwise distinct and every entry is stored under its deployer's name. -/
def QInv (s : OrchState) : Prop :=
  (s.queued.map Prod.fst).Nodup ∧ ∀ p ∈ s.queued, p.1 = p.2.name

/-- Every event preserves the queue invariant. -/
theorem qinv_step (t : OrchState) (e : Event) (h : QInv t) : QInv (step t e) := by
  obtain ⟨hnd, hkey⟩ := h
  cases e with
  | submit d =>
    show QInv (jsSubmit t d)
    unfold jsSubmit
    split
    · exact ⟨jsObjSet_nodup hnd, jsObjSet_forall hkey rfl⟩
    · exact ⟨hnd, hkey⟩
  | pullDone d err =>
    show QInv (jsPullDone t d err)
    unfold jsPullDone
    split
    · split
      · exact ⟨hnd, hkey⟩
      · exact ⟨hnd, hkey⟩
    · exact ⟨hnd, hkey⟩
  | runDone d err =>
    show QInv (jsRunDone t d err)
    unfold jsRunDone
    split
    · unfold drainOne
      split
      · exact ⟨hnd, hkey⟩
      · next n q rest heq2 =>
        have hnd' : (rest.map Prod.fst).Nodup := by
          rw [heq2] at hnd
          exact (List.nodup_cons.mp (by simpa using hnd)).2
        have hkey' : ∀ p ∈ rest, p.1 = p.2.name := fun p hp =>
          hkey p (by rw [heq2]; exact List.mem_cons_of_mem _ hp)
        split
        · exact ⟨hnd, hkey⟩
        · unfold jsSubmit
          split
          · exact ⟨jsObjSet_nodup hnd', jsObjSet_forall hkey' rfl⟩
          · exact ⟨hnd', hkey'⟩
    · exact ⟨hnd, hkey⟩

/-! ## Claim C5: resubmitting a queued name replaces the stored entry. -/

/-- C5: while the lock is held, submitting `d` stores it into the queue by
JS object assignment: the queue keys stay pairwise distinct (at most one
entry per name), the entry retained under `d.name` is exactly the newly
submitted `d`, and the queue grows only when `d.name` was not yet queued —
a resubmission for a queued name replaces instead of appending. -/
theorem claim5_queue_replace (s : OrchState) (d : Deployer) (h : Reachable s)
    (ha : s.active = true) :
    ((jsSubmit s d).queued.map Prod.fst).Nodup ∧
    (jsSubmit s d).queued.lookup d.name = some d ∧
    (jsSubmit s d).queued.length =
      (if d.name ∈ s.queued.map Prod.fst then s.queued.length
       else s.queued.length + 1) := by
  have hq : QInv s :=
    reachFrom_pres qinv_step h
      ⟨List.nodup_nil, fun p hp => absurd hp (List.not_mem_nil p)⟩
  have hsub : jsSubmit s d = { s with queued := jsObjSet s.queued d.name d } := by
    unfold jsSubmit
    rw [if_pos (Or.inr ha)]
  rw [hsub]
  exact ⟨jsObjSet_nodup hq.1, jsObjSet_lookup _ _ _, jsObjSet_length _ _ _⟩

/-- C5 witness: submitting `dOther` while `app-main`'s pull is in flight. -/
theorem claim5_witness :
    ((jsSubmit sPullingMain dOther).queued.map Prod.fst).Nodup ∧
    (jsSubmit sPullingMain dOther).queued.lookup dOther.name = some dOther ∧
    (jsSubmit sPullingMain dOther).queued.length =
      (if dOther.name ∈ sPullingMain.queued.map Prod.fst then sPullingMain.queued.length
       else sPullingMain.queued.length + 1) :=
  claim5_queue_replace sPullingMain dOther
    (ReachFrom.tail (ReachFrom.refl initState) (Event.submit dMain)) (by decide)

/-! ## Claim C6: a pull failure never invokes `run`. -/

/-- C6: the pull-error branch (src/server.js:198-202) only discharges the
pending pull callback; it records no `run` invocation, creates no run task,
and leaves the queue, the lock and the marked names untouched. -/
theorem claim6_pull_error_no_run (s : OrchState) (d : Deployer) :
    (jsPullDone s d true).runs = s.runs ∧
    (jsPullDone s d true).inflight = s.inflight.erase (Task.pull d) ∧
    (jsPullDone s d true).queued = s.queued ∧
    (jsPullDone s d true).active = s.active ∧
    (jsPullDone s d true).deployingNames = s.deployingNames := by
  unfold jsPullDone
  split
  · simp
  · next hmem =>
    exact ⟨rfl, (List.erase_of_not_mem hmem).symm, rfl, rfl, rfl⟩

/-! ## Claim C7 (corrected): branch derivation takes only the last segment.

`routeHookPush` computes `payload.ref.split("/").slice(-1)`: only the last
path segment of the ref survives (src/server.js:152, 160), so the branch
derived from `refs/heads/feature/x` is `"x"`, not `"feature/x"`.
-/

/-- C7 counterexample: for the push payload with ref
`refs/heads/feature/x`, the `branch` field of the deployer built by
`routeHookPush` is `"x"` and in particular not `"feature/x"`. -/
theorem claim7_counterexample :
    (mkDeployer "/srv" payloadFeature).branch = "x" ∧
    (mkDeployer "/srv" payloadFeature).branch ≠ "feature/x" := by
  decide

/-- C7 amended: for ref `refs/heads/feature/x` the derived branch is the
last `/`-separated segment `"x"`; the slug used in `name` is that same
segment, it contains no `/`, and the resulting name is `app-x`. -/
theorem claim7_amended :
    (mkDeployer "/srv" payloadFeature).branch = "x" ∧
    (mkDeployer "/srv" payloadFeature).name = "app-x" ∧
    branchSlugOf payloadFeature.ref = "x" ∧
    (branchSlugOf payloadFeature.ref).data.contains '/' = false := by
  decide

/-! ## Claim C8 (corrected): malformed payloads throw instead of acking.

`routeHookPush` calls `JSON.parse(req.body.payload)` with no handler
(src/server.js:151); on a malformed body the exception escapes before
`res.send('')` (src/server.js:174) is reached.
-/

/-- C8 counterexample: an allowed source sending a malformed payload gets
no response at all — the handler throws during parsing — although the
orchestrator is indeed not invoked; the claimed empty success
acknowledgement is never sent. -/
theorem claim8_counterexample :
    (routeHookPush "/srv" ["10.0.0.0/8"] "10.1.2.3" none true).response = none ∧
    (routeHookPush "/srv" ["10.0.0.0/8"] "10.1.2.3" none true).thrown = true ∧
    (routeHookPush "/srv" ["10.0.0.0/8"] "10.1.2.3" none true).dispatched = none := by
  decide

/-- C8 amended: a malformed payload is always dropped without invoking the
orchestrator, but it is not acknowledged: if the source address passes the
allow-list the handler throws out of `JSON.parse` and sends nothing, and
only a source rejected by the allow-list still receives the empty
response (sent before parsing). -/
theorem claim8_amended (dirname : String) (ranges : List String) (ip : String)
    (deployFileExists : Bool) :
    routeHookPush dirname ranges ip none deployFileExists =
      if ipAllowedLoop ip ranges then
        { response := none, thrown := true, dispatched := none }
      else
        { response := some "", thrown := false, dispatched := none } := by
  unfold routeHookPush
  split
  · rfl
  · rfl

/-! ## Claim C3 (corrected): lock free does not force an empty queue.

The guard `deployer.name in deploying` (src/server.js:180) is true for the
literal own key `"active"` and for every inherited `Object.prototype`
property, so a request with such a name is queued even when the system is
idle, and nothing ever drains it.  For names avoiding these collisions (and
the empty string, which the drain test treats as falsy) the claimed
invariant does hold.
-/

/-- C3 counterexample: submitting the scheduler-style request named
`"active"` from the idle initial state reaches a state where the lock is
free (`deploying.active` is false) but the queue is non-empty. -/
theorem claim3_counterexample :
    Reachable sActiveQueued ∧ sActiveQueued.active = false ∧ sActiveQueued.queued ≠ [] :=
  ⟨ReachFrom.tail (ReachFrom.refl initState) (Event.submit dActive), by decide, by decide⟩

/-- The strengthened structural invariant for safely-named traces: when the
lock is free everything is quiescent, queued entries are keyed by safe
deployer names, any in-flight task owns the single marked name, and at most
one task is in flight. -/
def Inv3 (s : OrchState) : Prop :=
  (s.active = false → s.inflight = [] ∧ s.deployingNames = [] ∧ s.queued = []) ∧
  (∀ p ∈ s.queued, p.1 = p.2.name ∧ SafeName p.1) ∧
  (∀ t ∈ s.inflight, s.deployingNames = [Task.name t] ∧ SafeName (Task.name t)) ∧
  s.inflight.length ≤ 1

/-- A safely-named submission preserves the structural invariant. -/
theorem inv3_submit (t : OrchState) (d : Deployer) (hd : SafeName d.name)
    (h : Inv3 t) : Inv3 (jsSubmit t d) := by
  obtain ⟨hC, hD, hB, hlen⟩ := h
  unfold jsSubmit
  split
  · next hg =>
    have hat : t.active = true := by
      rcases hg with hin | ha
      · rcases hin with h1 | h2 | h3
        · exact absurd h1 hd.2.1
        · by_contra hne
          have hfa : t.active = false := by
            cases hb : t.active
            · rfl
            · exact absurd hb hne
          rw [(hC hfa).2.1] at h2
          cases h2
        · exact absurd h3 hd.2.2
      · exact ha
    refine ⟨fun hf => Bool.noConfusion (hat.symm.trans hf), ?_, hB, hlen⟩
    exact jsObjSet_forall hD ⟨rfl, hd⟩
  · next hg =>
    have hfa : t.active = false := by
      cases hb : t.active
      · rfl
      · exact absurd (Or.inr hb) hg
    obtain ⟨hin0, hdn0, _⟩ := hC hfa
    refine ⟨fun hf => Bool.noConfusion hf, hD, ?_, ?_⟩
    · intro tk htk
      rw [hin0] at htk
      simp only [List.nil_append, List.mem_singleton] at htk
      subst htk
      constructor
      · show markDeploying t.deployingNames d.name = [d.name]
        rw [hdn0]
        unfold markDeploying
        simp
      · exact hd
    · show (t.inflight ++ [Task.pull d]).length ≤ 1
      rw [hin0]
      simp

/-- A pull completion preserves the structural invariant. -/
theorem inv3_pullDone (t : OrchState) (d : Deployer) (err : Bool)
    (h : Inv3 t) : Inv3 (jsPullDone t d err) := by
  obtain ⟨hC, hD, hB, hlen⟩ := h
  unfold jsPullDone
  split
  · next hmem =>
    have heq : t.inflight = [Task.pull d] := mem_len_one hmem hlen
    obtain ⟨hdn, hsafe⟩ := hB (Task.pull d) hmem
    have hat : t.active = true := by
      by_contra hne
      have hfa : t.active = false := by
        cases hb : t.active
        · rfl
        · exact absurd hb hne
      rw [(hC hfa).1] at heq
      cases heq
    split
    · refine ⟨fun hf => Bool.noConfusion (hat.symm.trans hf), hD, ?_, ?_⟩
      · intro tk htk
        rw [heq] at htk
        simp at htk
      · show (t.inflight.erase (Task.pull d)).length ≤ 1
        rw [heq]
        simp
    · refine ⟨fun hf => Bool.noConfusion (hat.symm.trans hf), hD, ?_, ?_⟩
      · intro tk htk
        rw [heq] at htk
        simp only [List.erase_cons_head, List.nil_append, List.mem_singleton] at htk
        subst htk
        exact ⟨hdn, hsafe⟩
      · show (t.inflight.erase (Task.pull d) ++ [Task.run d]).length ≤ 1
        rw [heq]
        simp
  · exact ⟨hC, hD, hB, hlen⟩

/-- A run completion (with its drain step) preserves the invariant. -/
theorem inv3_runDone (t : OrchState) (d : Deployer) (err : Bool)
    (h : Inv3 t) : Inv3 (jsRunDone t d err) := by
  obtain ⟨hC, hD, hB, hlen⟩ := h
  unfold jsRunDone
  split
  · next hmem =>
    have heq : t.inflight = [Task.run d] := mem_len_one hmem hlen
    obtain ⟨hdn, _⟩ := hB (Task.run d) hmem
    have hin' : t.inflight.erase (Task.run d) = [] := by rw [heq]; simp
    have hdn' : t.deployingNames.erase d.name = [] := by
      rw [hdn]
      show List.erase [Task.name (Task.run d)] d.name = []
      simp [Task.name]
    unfold drainOne
    split
    · next heq2 =>
      refine ⟨fun _ => ⟨hin', hdn', heq2⟩, hD, ?_, ?_⟩
      · intro tk htk
        rw [hin'] at htk
        cases htk
      · show (t.inflight.erase (Task.run d)).length ≤ 1
        rw [hin']
        decide
    · next n q rest heq2 =>
      obtain ⟨hkeyn, hsafen⟩ :=
        hD (n, q) (by rw [heq2]; exact List.mem_cons_self _ _)
      have hD' : ∀ p ∈ rest, p.1 = p.2.name ∧ SafeName p.1 := fun p hp =>
        hD p (by rw [heq2]; exact List.mem_cons_of_mem _ hp)
      split
      · next hne => exact absurd hne hsafen.1
      · unfold jsSubmit
        split
        · next hg =>
          exfalso
          rcases hg with hin | ha
          · rcases hin with h1 | h2 | h3
            · exact hsafen.2.1 (hkeyn.trans h1)
            · rw [hdn'] at h2
              cases h2
            · exact hsafen.2.2 (hkeyn ▸ h3)
          · cases ha
        · refine ⟨fun hf => Bool.noConfusion hf, hD', ?_, ?_⟩
          · intro tk htk
            rw [hin'] at htk
            simp only [List.nil_append, List.mem_singleton] at htk
            subst htk
            constructor
            · show markDeploying (t.deployingNames.erase d.name) q.name = [Task.name (Task.pull q)]
              rw [hdn']
              unfold markDeploying
              simp [Task.name]
            · have hk : n = q.name := hkeyn
              have hs : SafeName n := hsafen
              rw [hk] at hs
              exact hs
          · show ((t.inflight.erase (Task.run d)) ++ [Task.pull q]).length ≤ 1
            rw [hin']
            simp
  · exact ⟨hC, hD, hB, hlen⟩

/-- The structural invariant holds in every safely-named reachable state. -/
theorem safeReach_inv3 (s : OrchState) (h : SafeReach s) : Inv3 s := by
  induction h with
  | init =>
    exact ⟨fun _ => ⟨rfl, rfl, rfl⟩, fun p hp => absurd hp (List.not_mem_nil p),
      fun tk htk => absurd htk (List.not_mem_nil tk), Nat.zero_le 1⟩
  | @submit s d h hd ih => exact inv3_submit s d hd ih
  | @pullDone s d err h ih => exact inv3_pullDone s d err ih
  | @runDone s d err h ih => exact inv3_runDone s d err ih

/-- C3 amended: along every trace whose submitted requests all carry safe
names — non-empty, distinct from the lock key `"active"`, and not an
inherited `Object.prototype` property — whenever the lock is free the
pending queue is empty. -/
theorem claim3_amended_invariant (s : OrchState) (h : SafeReach s)
    (ha : s.active = false) : s.queued = [] :=
  ((safeReach_inv3 s h).1 ha).2.2

/-- The idle state after `app-main` was submitted, pulled and run. -/
def sIdleAgain : OrchState :=
  step (step (step initState (Event.submit dMain)) (Event.pullDone dMain false))
    (Event.runDone dMain false)

/-- C3 witness: after a full submit–pull–run cycle for `app-main` the lock
is free again and the queue is indeed empty. -/
theorem claim3_witness : sIdleAgain.queued = [] :=
  claim3_amended_invariant sIdleAgain
    (SafeReach.runDone (SafeReach.pullDone (SafeReach.submit SafeReach.init (by decide))))
    (by decide)

/-! ## Claim C4 (corrected): draining is exhaustive only for safe names.

A queued entry stored under the key `"active"` is popped by the drain step
but immediately re-queued by the recursive `deploy` call (its name passes
the `in deploying` test), so it is never run and the queue never empties.
For safely-named queues the drain loop does run every entry.
-/

/-- Once an entry is stored under the key `"active"` (with the queue keyed
by deployer names), every event keeps such an entry in the queue. -/
theorem activeStuck_step (t : OrchState) (e : Event)
    (h : QInv t ∧ "active" ∈ t.queued.map Prod.fst) :
    QInv (step t e) ∧ "active" ∈ (step t e).queued.map Prod.fst := by
  obtain ⟨hq, hmem⟩ := h
  refine ⟨qinv_step t e hq, ?_⟩
  cases e with
  | submit d =>
    show "active" ∈ (jsSubmit t d).queued.map Prod.fst
    unfold jsSubmit
    split
    · exact jsObjSet_keys_superset _ _ hmem
    · exact hmem
  | pullDone d err =>
    show "active" ∈ (jsPullDone t d err).queued.map Prod.fst
    unfold jsPullDone
    split
    · split
      · exact hmem
      · exact hmem
    · exact hmem
  | runDone d err =>
    show "active" ∈ (jsRunDone t d err).queued.map Prod.fst
    unfold jsRunDone
    split
    · unfold drainOne
      split
      · exact hmem
      · next n q rest heq2 =>
        have hmem' : "active" = n ∨ "active" ∈ rest.map Prod.fst := by
          rw [heq2, List.map_cons] at hmem
          exact List.mem_cons.mp hmem
        have hkey : n = q.name :=
          hq.2 (n, q) (by rw [heq2]; exact List.mem_cons_self _ _)
        split
        · exact hmem
        · unfold jsSubmit
          split
          · rcases hmem' with h1 | h1
            · have h2 : "active" = q.name := h1.trans hkey
              rw [h2]
              exact jsObjSet_keys_self _ _ _
            · exact jsObjSet_keys_superset _ _ h1
          · next hg =>
            rcases hmem' with h1 | h1
            · exact absurd (Or.inl (Or.inl (hkey.symm.trans h1.symm))) hg
            · exact h1
    · exact hmem

/-- C4 counterexample: run `app-main` with the `"active"`-named request
queued behind it.  When the busy run completes, the drain pops the entry
and the recursive `deploy` call immediately re-queues it, ending in a state
with the lock free, nothing in flight, the queue still non-empty, and the
`"active"` request never run; moreover no continuation of this trace ever
empties the queue, so the claimed termination with an empty queue is
unreachable. -/
theorem claim4_counterexample :
    Reachable sActiveStuck ∧
    sActiveStuck.active = false ∧
    sActiveStuck.inflight = [] ∧
    sActiveStuck.queued = [("active", dActive)] ∧
    sActiveStuck.runs = ["app-main"] ∧
    ¬ ∃ s' : OrchState, ReachFrom sActiveStuck s' ∧ s'.queued = [] := by
  refine ⟨?_, by decide, by decide, by decide, by decide, ?_⟩
  · exact ReachFrom.tail (ReachFrom.tail (ReachFrom.tail (ReachFrom.tail
      (ReachFrom.refl initState) (Event.submit dMain)) (Event.submit dActive))
      (Event.pullDone dMain false)) (Event.runDone dMain false)
  · rintro ⟨s', hreach, hempty⟩
    have h0 : QInv sActiveStuck ∧ "active" ∈ sActiveStuck.queued.map Prod.fst := by
      refine ⟨⟨by decide, by decide⟩, by decide⟩
    have h1 := reachFrom_pres activeStuck_step hreach h0
    rw [hempty] at h1
    exact absurd h1.2 (by simp)

/-- Exhaustive draining for safely-named queues: from a state in which `d`
is the single running deployment and the queue holds entries keyed by safe
deployer names, the completion sequence in which every drained entry's pull
succeeds and its run completes ends with the queue empty, the lock free,
nothing in flight, and every queued request's `run` invoked.  The final
equality records the drain sequence of this model's insertion-order pick;
the program's own enumeration order is arbitrary (V8 moves integer-like
keys first), so the claim-level theorem uses this equality only up to
permutation. -/
theorem drain_all (Q : List (String × Deployer)) :
    ∀ (d : Deployer) (s : OrchState),
      s.inflight = [Task.run d] →
      s.deployingNames = [d.name] →
      s.queued = Q →
      (∀ p ∈ Q, p.1 = p.2.name ∧ SafeName p.1) →
      (runToCompletion Q.length d s).queued = [] ∧
      (runToCompletion Q.length d s).active = false ∧
      (runToCompletion Q.length d s).inflight = [] ∧
      (runToCompletion Q.length d s).deployingNames = [] ∧
      (runToCompletion Q.length d s).runs = s.runs ++ Q.map Prod.fst := by
  induction Q with
  | nil =>
    intro d s hinf hnames hQ _
    obtain ⟨act, dnames, qd, infl, rns⟩ := s
    dsimp only at hinf hnames hQ
    subst hinf
    subst hnames
    subst hQ
    simp [runToCompletion, jsRunDone, drainOne]
  | cons p rest ih =>
    intro d s hinf hnames hQ hkeys
    obtain ⟨n, q⟩ := p
    obtain ⟨hkeyn, hsafen⟩ := hkeys (n, q) (List.mem_cons_self _ _)
    have hkeyn' : n = q.name := hkeyn
    subst hkeyn'
    have hs : SafeName q.name := hsafen
    obtain ⟨act, dnames, qd, infl, rns⟩ := s
    dsimp only at hinf hnames hQ
    subst hinf
    subst hnames
    subst hQ
    have hrd : jsRunDone (OrchState.mk act [d.name] ((q.name, q) :: rest) [Task.run d] rns)
        d false = OrchState.mk true [q.name] rest [Task.pull q] rns := by
      simp [jsRunDone, drainOne, jsSubmit, jsIn, markDeploying, hs.1, hs.2.1, hs.2.2]
    have hpd : jsPullDone (OrchState.mk true [q.name] rest [Task.pull q] rns) q false =
        OrchState.mk true [q.name] rest [Task.run q] (rns ++ [q.name]) := by
      simp [jsPullDone]
    rw [List.length_cons]
    simp only [runToCompletion]
    rw [hrd]
    dsimp only
    rw [hpd]
    have hrec := ih q (OrchState.mk true [q.name] rest [Task.run q] (rns ++ [q.name]))
      rfl rfl rfl (fun p1 hp1 => hkeys p1 (List.mem_cons_of_mem _ hp1))
    refine ⟨hrec.1, hrec.2.1, hrec.2.2.1, hrec.2.2.2.1, ?_⟩
    rw [hrec.2.2.2.2]
    simp

/-- C4 amended: if the requests queued while a deployment is busy all carry
distinct safe names (non-empty, not the lock key `"active"`, not an
inherited `Object.prototype` property), then once the busy run completes —
with each drained entry's pull succeeding and run completing — each
completion drains exactly one entry, eventually every queued request has
been run exactly once (the drain order is arbitrary, so the run log is
stated only up to permutation), and the system terminates with the queue
empty and the lock free. -/
theorem claim4_amended_drain (Q : List (String × Deployer)) (d : Deployer)
    (s : OrchState)
    (hinf : s.inflight = [Task.run d])
    (hnames : s.deployingNames = [d.name])
    (hQ : s.queued = Q)
    (hkeys : ∀ p ∈ Q, p.1 = p.2.name ∧ SafeName p.1)
    (_hnodup : (Q.map Prod.fst).Nodup) :
    (runToCompletion Q.length d s).queued = [] ∧
    (runToCompletion Q.length d s).active = false ∧
    (runToCompletion Q.length d s).inflight = [] ∧
    (runToCompletion Q.length d s).deployingNames = [] ∧
    ((runToCompletion Q.length d s).runs).Perm (s.runs ++ Q.map Prod.fst) := by
  obtain ⟨h1, h2, h3, h4, h5⟩ := drain_all Q d s hinf hnames hQ hkeys
  refine ⟨h1, h2, h3, h4, ?_⟩
  rw [h5]

/-- C4 witness: with `dOther` queued behind the running `app-main`, the
completion sequence drains it, runs it, and ends idle with an empty queue. -/
theorem claim4_witness :
    (runToCompletion [("b-main", dOther)].length dMain sBusyQueued).queued = [] ∧
    (runToCompletion [("b-main", dOther)].length dMain sBusyQueued).active = false ∧
    (runToCompletion [("b-main", dOther)].length dMain sBusyQueued).inflight = [] ∧
    (runToCompletion [("b-main", dOther)].length dMain sBusyQueued).deployingNames = [] ∧
    ((runToCompletion [("b-main", dOther)].length dMain sBusyQueued).runs).Perm
      (sBusyQueued.runs ++ [("b-main", dOther)].map Prod.fst) :=
  claim4_amended_drain [("b-main", dOther)] dMain sBusyQueued
    (by decide) (by decide) (by decide) (by decide) (by decide)

/-! ## Claim C9: the allow-list admits and rejects by CIDR containment. -/

/-- C9: with allow-list `["10.0.0.0/8"]`, a push from `203.0.113.5` is
rejected — the empty response is sent and the orchestrator is not called —
while the same push from `10.1.2.3` is admitted and dispatched. -/
theorem claim9_ip_allowlist :
    (routeHookPush "/srv" ["10.0.0.0/8"] "203.0.113.5" (some payloadMain) true).response
      = some "" ∧
    (routeHookPush "/srv" ["10.0.0.0/8"] "203.0.113.5" (some payloadMain) true).dispatched
      = none ∧
    (routeHookPush "/srv" ["10.0.0.0/8"] "203.0.113.5" (some payloadMain) true).thrown
      = false ∧
    (routeHookPush "/srv" ["10.0.0.0/8"] "10.1.2.3" (some payloadMain) true).dispatched
      = some (mkDeployer "/srv" payloadMain) ∧
    (routeHookPush "/srv" ["10.0.0.0/8"] "10.1.2.3" (some payloadMain) true).response
      = some "" := by
  decide

/-! ## Claim C10: an empty allow-list rejects nothing. -/

/-- C10: with an empty allow-list the `for` loop over the ranges never
executes its body, so no source address is ever rejected and every request
proceeds to parsing and dispatch. -/
theorem claim10_empty_allowlist (dirname ip : String) (body : Option PushPayload)
    (deployFileExists : Bool) :
    ipAllowedLoop ip [] = true ∧
    routeHookPush dirname [] ip body deployFileExists =
      parseAndDispatch dirname body deployFileExists := by
  exact ⟨rfl, rfl⟩

end Komodo
